import Mathlib

/-!
Verification of the calendar-gap-time availability core.

The model is a shallow embedding of `src/client/src/App.js` (DateTimeUtils,
CalendarService), `src/client/src/services/apiService.js` (ApiError,
ApiServiceClass) and `src/client/src/config/constants.js`.

Modelling conventions:
* Instants are `Int` milliseconds; a calendar date is a `Nat` day index, so the
  instant of day `d` at millisecond-of-day `m` is `d * 86400000 + m`.  This
  mirrors the epoch-millisecond arithmetic dayjs performs.
* A dayjs `format('HH:mm')` value is modelled as the minute-of-day `Nat`
  (`"10:20"` is `620`).  For zero-padded `HH:mm` strings JavaScript
  `localeCompare` order coincides with the numeric order of the minute-of-day,
  and parsing `"2000-01-01 HH:mm"` back with dayjs and comparing instants also
  coincides with it, so slot-time comparisons are `Nat` comparisons.
* `dayjs#diff(_, 'minute')` truncates the millisecond difference toward zero,
  which is `Int.tdiv _ 60000`.
* JavaScript exceptions (the `TypeError` raised when reading `.dateTime` of an
  `undefined` event end, and thrown `ApiError`s) are modelled with `Except`.
* `dayjs(undefined)` yields the current time; functions that can hit this case
  take an explicit `now : Int` parameter.
* JavaScript `Array.prototype.sort` is stable, so it is modelled with
  `List.insertionSort` (a stable sort) on the comparator's ordering.
-/

namespace CalendarGap

/-! ## Constants (src/client/src/config/constants.js) -/

def BUFFER_TIME_MINUTES : Nat := 20

def CORE_TIME_START_HOUR : Nat := 10

def CORE_TIME_END_HOUR : Nat := 22

def MIN_SLOT_DURATION : Nat := 30

def MAX_RETRY_ATTEMPTS : Nat := 3

def BATCH_SIZE : Nat := 5

/-- `API_CONSTANTS.INITIAL_RETRY_DELAY_MS`, as a rational for the backoff
computation (JavaScript numbers; the values involved are exact). -/
def INITIAL_RETRY_DELAY_MS : ℚ := 1000

def MAX_RETRY_DELAY_MS : ℚ := 5000

def EXPONENTIAL_BACKOFF_MULTIPLIER : ℚ := 2

def msPerMinute : Int := 60000

def msPerDay : Int := 86400000

/-! ## Time model -/

/-- A parsed ISO date-time: the calendar date (`day`, as a day index) together
with the millisecond offset into that day.  `event.start.dateTime.split('T')[0]`
reads the `day` component; the dayjs instant is `day * msPerDay + ms`. -/
structure DateTime where
  day : Nat
  ms : Nat
  deriving Repr, DecidableEq

def DateTime.instant (d : DateTime) : Int := (d.day : Int) * msPerDay + (d.ms : Int)

/-- `event.start` / `event.end` objects: either an all-day `date` or a timed
`dateTime` (or, for malformed data, neither). -/
structure EventTime where
  date : Option Nat := none
  dateTime : Option DateTime := none
  deriving Repr, DecidableEq

/-- A Google Calendar event as consumed by the availability calculator; the
`start`/`end` fields may be absent on malformed events. -/
structure Event where
  start : Option EventTime := none
  «end» : Option EventTime := none
  deriving Repr, DecidableEq

/-- A free slot as pushed by `calculateDayAvailableSlots` /
`mergeContinuousSlots`: `startTime`/`endTime` are `format('HH:mm')` values
(minute-of-day), `isContinuous` is the flag set by the merge step (absent,
i.e. `false`, on freshly generated slots). -/
structure Slot where
  startTime : Nat
  endTime : Nat
  isContinuous : Bool := false
  deriving Repr, DecidableEq

/-- A buffer-expanded busy interval (`{ start, end }` dayjs instants). -/
structure BusyInterval where
  start : Int
  «end» : Int
  deriving Repr, DecidableEq

/-- A user-declared preferred window `{ date, start, end }`:
`start`/`end` are `HH:mm` strings, modelled as minute-of-day. -/
structure TimeSlot where
  date : Nat
  start : Nat
  «end» : Nat
  deriving Repr, DecidableEq

/-- `format('HH:mm')` of an instant, as minute-of-day.  Only applied to
instants inside a (nonnegative) day, where `toNat` is the identity. -/
def fmtHM (t : Int) : Nat := t.toNat / 60000 % 1440

/-- `a.diff(b, 'minute')`: dayjs truncates the quotient toward zero. -/
def diffMinutes (a b : Int) : Int := (a - b).tdiv 60000

/-! ## DateTimeUtils (src/client/src/App.js lines 106-165) -/

/-- The body of the `generateDateRange` while-loop, with fuel: push `current`
while `current` is on or before `endDate`, stepping one day at a time. -/
def generateDateRangeGo : Nat → Nat → Nat → List Nat
  | 0, _, _ => []
  | fuel + 1, current, endDate =>
    if current ≤ endDate then current :: generateDateRangeGo fuel (current + 1) endDate
    else []

/-- `DateTimeUtils.generateDateRange`: every date from `startDate` to `endDate`
inclusive.  The fuel `endDate + 1 - startDate` is exactly the number of loop
iterations, so the guard, not the fuel, terminates the loop. -/
def generateDateRange (startDate endDate : Nat) : List Nat :=
  generateDateRangeGo (endDate + 1 - startDate) startDate endDate

/-- Comparator `(a, b) => a.startTime.localeCompare(b.startTime)` on
zero-padded `HH:mm` strings, i.e. minute-of-day order. -/
def slotLE (a b : Slot) : Prop := a.startTime ≤ b.startTime

instance : DecidableRel slotLE := fun a b => Nat.decLe a.startTime b.startTime

instance : IsTotal Slot slotLE := ⟨fun a b => Nat.le_total a.startTime b.startTime⟩

instance : IsTrans Slot slotLE := ⟨fun _ _ _ h1 h2 => Nat.le_trans h1 h2⟩

/-- The merge loop of `mergeContinuousSlots`: `currentSlot` absorbs each next
slot whose start is on or before `currentSlot.endTime`, extending the end to
the larger of the two and marking `isContinuous`; otherwise `currentSlot` is
pushed and the next slot becomes current.  The current slot is pushed at the
end. -/
def mergeLoop (cur : Slot) : List Slot → List Slot
  | [] => [cur]
  | s :: rest =>
    if s.startTime ≤ cur.endTime then
      mergeLoop { cur with endTime := max cur.endTime s.endTime, isContinuous := true } rest
    else
      cur :: mergeLoop s rest

/-- `DateTimeUtils.mergeContinuousSlots`: sort by `startTime`, then run the
merge loop; the empty list maps to the empty list. -/
def mergeContinuousSlots (slots : List Slot) : List Slot :=
  match List.insertionSort slotLE slots with
  | [] => []
  | s :: rest => mergeLoop s rest

/-! ## CalendarService.calculateDayAvailableSlots (App.js lines 298-374) -/

/-- The date filter of `dayEvents`: an all-day event matches by its `start.date`;
a timed event matches by the date part of `start.dateTime`; anything else is
dropped. -/
def eventMatchesDate (targetDate : Nat) (e : Event) : Bool :=
  match e.start with
  | none => false
  | some s =>
    match s.date with
    | some d => d == targetDate
    | none =>
      match s.dateTime with
      | some dt => dt.day == targetDate
      | none => false

/-- `dayjs(x)` for an optional parsed value: `dayjs(undefined)` is the current
time `now`. -/
def instantOr (now : Int) : Option DateTime → Int
  | some dt => dt.instant
  | none => now

/-- The `.map` step producing a busy interval from one event.  All-day events
(`start.date` and `end.date` both present) span from start-of-day to the end of
the day before `end.date` (the exclusive end convention); timed events are
expanded by the 20-minute buffer on both sides.  An event whose `start` or
`end` object is missing makes the JavaScript code read `.dateTime` of
`undefined`, a thrown `TypeError`, modelled as `Except.error`. -/
def eventToBusy (now : Int) (e : Event) : Except Unit BusyInterval :=
  match e.start, e.«end» with
  | some s, some en =>
    match s.date, en.date with
    | some ds, some de =>
      Except.ok ⟨(ds : Int) * msPerDay, (de : Int) * msPerDay - 1⟩
    | _, _ =>
      Except.ok ⟨instantOr now s.dateTime - (BUFFER_TIME_MINUTES : Int) * msPerMinute,
                 instantOr now en.dateTime + (BUFFER_TIME_MINUTES : Int) * msPerMinute⟩
  | _, _ => Except.error ()

/-- JavaScript `Array.prototype.map` over a callback that can throw: the first
exception aborts the whole map. -/
def mapExcept (f : α → Except Unit β) : List α → Except Unit (List β)
  | [] => Except.ok []
  | a :: l =>
    match f a with
    | Except.error e => Except.error e
    | Except.ok b =>
      match mapExcept f l with
      | Except.error e => Except.error e
      | Except.ok bs => Except.ok (b :: bs)

/-- Comparison underlying `.sort((a, b) => a.start.diff(b.start))`. -/
def busyLE (a b : BusyInterval) : Prop := a.start ≤ b.start

instance : DecidableRel busyLE := fun a b => Int.decLe a.start b.start

/-- `.sort((a, b) => a.start.diff(b.start))`: stable sort ascending by start. -/
def sortBusy (l : List BusyInterval) : List BusyInterval :=
  List.insertionSort busyLE l

/-- The `dayEvents` pipeline: filter to the target date, map to busy intervals
(possibly throwing), sort ascending by start instant. -/
def dayBusyIntervals (now : Int) (events : List Event) (date : Nat) :
    Except Unit (List BusyInterval) :=
  match mapExcept (eventToBusy now) (events.filter (eventMatchesDate date)) with
  | Except.error e => Except.error e
  | Except.ok l => Except.ok (sortBusy l)

/-- The `slotRanges` to scan: the user's windows for the date if any, else the
single core-time window 10:00-22:00 of that date (`date.hour(h).minute(0)
.second(0)` on the midnight instant of the date). -/
def slotRanges (date : Nat) (slotsForDate : List TimeSlot) : List (Int × Int) :=
  if 0 < slotsForDate.length then
    slotsForDate.map (fun s =>
      ((date : Int) * msPerDay + (s.start : Int) * msPerMinute,
       (date : Int) * msPerDay + (s.«end» : Int) * msPerMinute))
  else
    [((date : Int) * msPerDay + (CORE_TIME_START_HOUR : Int) * 60 * msPerMinute,
      (date : Int) * msPerDay + (CORE_TIME_END_HOUR : Int) * 60 * msPerMinute)]

/-- The per-window for-loop over sorted busy intervals with cursor
`currentTime`; returns the final cursor and the emitted slots.  Mirrors the
source: skip intervals ending before the cursor, `break` once an interval
starts after the window end, emit the gap before the interval when it is at
least `MIN_SLOT_DURATION` minutes, advance the cursor, `break` once the cursor
passes the window end. -/
def sweepEvents (rangeEnd : Int) (cur : Int) : List BusyInterval → Int × List Slot
  | [] => (cur, [])
  | ev :: rest =>
    if ev.«end» < cur then sweepEvents rangeEnd cur rest
    else if rangeEnd < ev.start then (cur, [])
    else
      let emitted :=
        if cur < ev.start then
          let slotEnd := if ev.start < rangeEnd then ev.start else rangeEnd
          if (MIN_SLOT_DURATION : Int) ≤ diffMinutes slotEnd cur then
            [{ startTime := fmtHM cur, endTime := fmtHM slotEnd }]
          else []
        else []
      let cur1 := if cur < ev.«end» then ev.«end» else cur
      if rangeEnd < cur1 then (cur1, emitted)
      else
        let r := sweepEvents rangeEnd cur1 rest
        (r.1, emitted ++ r.2)

/-- One window of the day computation: the sweep plus the trailing gap after
the last relevant interval. -/
def windowSlots (dayEvents : List BusyInterval) (rangeStart rangeEnd : Int) : List Slot :=
  let r := sweepEvents rangeEnd rangeStart dayEvents
  r.2 ++
    (if r.1 < rangeEnd then
      if (MIN_SLOT_DURATION : Int) ≤ diffMinutes rangeEnd r.1 then
        [{ startTime := fmtHM r.1, endTime := fmtHM rangeEnd }]
      else []
    else [])

/-- `CalendarService.calculateDayAvailableSlots`. -/
def calculateDayAvailableSlots (now : Int) (events : List Event) (date : Nat)
    (slotsForDate : List TimeSlot) : Except Unit (List Slot) :=
  match dayBusyIntervals now events date with
  | Except.error e => Except.error e
  | Except.ok dayEvents =>
    Except.ok ((slotRanges date slotsForDate).flatMap
      (fun r => windowSlots dayEvents r.1 r.2))

/-! ## CalendarService.calculateAvailableSlots (App.js lines 253-293) -/

/-- Iteration-order deduplication, the body of `[...new Set(list)]`. -/
def uniqueFirstGo (acc : List Nat) : List Nat → List Nat
  | [] => acc
  | d :: rest => if d ∈ acc then uniqueFirstGo acc rest else uniqueFirstGo (acc ++ [d]) rest

/-- `[...new Set(list)]`: distinct values in first-occurrence order. -/
def uniqueFirst (l : List Nat) : List Nat := uniqueFirstGo [] l

/-- The dates the calculator iterates over: the distinct dates named by the
preferred windows when there are any, else every date of the requested range. -/
def targetDates (timeSlots : List TimeSlot) (startDate endDate : Nat) : List Nat :=
  if 0 < timeSlots.length then uniqueFirst (timeSlots.map (fun s => s.date))
  else generateDateRange startDate endDate

/-- `totalMinutes`: the reduce summing `end.diff(start, 'minute')` over the
merged slots (on same-day `HH:mm` values this is the minute difference). -/
def totalMinutesOf (slots : List Slot) : Int :=
  slots.foldl (fun acc s => acc + ((s.endTime : Int) - (s.startTime : Int))) 0

/-- One per-day entry of the result (`dateFormatted` is presentation only and
dropped). -/
structure DayResult where
  date : Nat
  slots : List Slot
  totalSlots : Nat
  totalMinutes : Int
  deriving Repr, DecidableEq

def mkDayResult (date : Nat) (daySlots : List Slot) : DayResult :=
  let merged := mergeContinuousSlots daySlots
  { date := date, slots := merged, totalSlots := merged.length,
    totalMinutes := totalMinutesOf merged }

/-- The `dates.forEach` body: compute each day's slots (a thrown error aborts
the whole computation), keep a `DayResult` only for days with at least one
slot. -/
def calcDays (now : Int) (events : List Event) (timeSlots : List TimeSlot) :
    List Nat → Except Unit (List DayResult)
  | [] => Except.ok []
  | d :: ds =>
    match calculateDayAvailableSlots now events d (timeSlots.filter (fun t => t.date == d)) with
    | Except.error e => Except.error e
    | Except.ok daySlots =>
      match calcDays now events timeSlots ds with
      | Except.error e => Except.error e
      | Except.ok rest =>
        Except.ok (if 0 < daySlots.length then mkDayResult d daySlots :: rest else rest)

/-- `CalendarService.calculateAvailableSlots`. -/
def calculateAvailableSlots (now : Int) (events : List Event)
    (startDate endDate : Nat) (timeSlots : List TimeSlot) : Except Unit (List DayResult) :=
  calcDays now events timeSlots (targetDates timeSlots startDate endDate)

/-! ## CalendarService.fetchAllCalendarEvents result filtering (App.js 222-236) -/

/-- One per-calendar result of `ApiService.batchRequest` as consumed by
`fetchAllCalendarEvents`: either an `{ error }` value or a response whose
`items` may be absent. -/
structure CalFetchResult where
  error : Option String := none
  items : Option (List Event) := none
  deriving Repr, DecidableEq

/-- The union step: events of all successful results
(`results.filter(r => !r.error).flatMap(r => r.items || [])`). -/
def unionedEvents (results : List CalFetchResult) : List Event :=
  (results.filter (fun r => r.error.isNone)).flatMap (fun r => r.items.getD [])

/-- An event whose `start` object exists and names a date or a date-time; only
these can pass the date filter of `calculateDayAvailableSlots`. -/
def eventHasStartInfo (e : Event) : Bool :=
  match e.start with
  | some s => s.date.isSome || s.dateTime.isSome
  | none => false

/-- `event.start && event.start.dateTime`. -/
def hasStartDateTime (e : Event) : Bool :=
  match e.start with
  | some s => s.dateTime.isSome
  | none => false

/-- The final filter of `fetchAllCalendarEvents`: keep only events with a
timed start. -/
def extractAllEvents (results : List CalFetchResult) : List Event :=
  (unionedEvents results).filter hasStartDateTime

/-! ## ApiError (src/client/src/services/apiService.js lines 16-49) -/

/-- Error messages from `ERROR_MESSAGES` (constants.js). -/
def RATE_LIMIT_EXCEEDED : String := "API使用制限に達しました。しばらく待ってから再試行してください"

def QUOTA_EXCEEDED : String := "API使用量上限に達しました。明日再試行してください"

def TIMEOUT_ERROR : String := "リクエストがタイムアウトしました"

def NETWORK_ERROR : String := "ネットワークエラーが発生しました"

/-- `message.includes(pattern)` for a nonempty pattern. -/
def strIncludes (s pattern : String) : Bool := 1 < (s.splitOn pattern).length

/-- The parsed error body `{ error: { message } }`; an unparseable body is the
empty object (`errMessage` absent). -/
structure ErrBody where
  errMessage : Option String := none
  deriving Repr, DecidableEq

/-- The `ApiError` class: message, optional HTTP status, optional response
body, and the `isRateLimit` flag. -/
structure ApiErr where
  message : String
  status : Option Int := none
  response : Option ErrBody := none
  isRateLimit : Bool := false
  deriving Repr, DecidableEq

/-- `ApiError.prototype.isRateLimited`. -/
def ApiErr.isRateLimited (e : ApiErr) : Bool :=
  e.isRateLimit || e.status == some 429 ||
    strIncludes e.message "rate limit" || strIncludes e.message "quota exceeded"

/-- `ApiError.prototype.isAuthError`. -/
def ApiErr.isAuthError (e : ApiErr) : Bool :=
  e.status == some 401 || e.status == some 403

/-- `ApiError.prototype.isTemporary`; a `null` status fails every comparison. -/
def ApiErr.isTemporary (e : ApiErr) : Bool :=
  (match e.status with
   | some s => decide (500 ≤ s)
   | none => false) || e.status == some 429 || e.status == some 408

/-! ## Resilient fetcher (apiService.js lines 185-463) -/

/-- The shared service state: `rateLimitResetTime` (`null` = unrestricted). -/
structure ApiState where
  rateLimitResetTime : Option Int := none
  deriving Repr, DecidableEq

/-- An HTTP response as the fetcher observes it: `ok`/`status`/`statusText`,
the rate-limit headers (already `parseInt`-ed; `none` = header absent), the
parsed error body, and the parsed success payload. -/
structure HttpResponse where
  ok : Bool
  status : Int
  statusText : String := ""
  retryAfter : Option Int := none
  rateLimitReset : Option Int := none
  body : Option ErrBody := none
  data : Nat := 0
  deriving Repr, DecidableEq

/-- The possible outcomes of one `fetch` call: a response, an abort by the
timeout watchdog (`AbortError`), a network-level `TypeError`, or some other
thrown error. -/
inductive HttpOutcome where
  | resp (r : HttpResponse)
  | abortError
  | fetchTypeError
  | otherError (message : String)
  deriving Repr, DecidableEq

/-- An error caught by the retry loop: either a thrown `ApiError` or one of
the raw exception shapes. -/
inductive FetchErr where
  | api (e : ApiErr)
  | abortError
  | fetchTypeError
  | otherError (message : String)
  deriving Repr, DecidableEq

/-- `Math.ceil(a / b)` for a positive divisor. -/
def ceilDiv (a b : Int) : Int := -((-a).fdiv b)

/-- The `ApiError` thrown by `checkRateLimit`: rate-limit message with the
remaining wait in seconds, status 429, `isRateLimit` set. -/
def rateLimitErrorOf (waitTime : Int) : ApiErr :=
  { message := RATE_LIMIT_EXCEEDED ++ " (" ++ toString (ceilDiv waitTime 1000) ++ "秒後に再試行可能)",
    status := some 429, response := none, isRateLimit := true }

/-- `checkRateLimit`: when `rateLimitResetTime` is set and still in the
future, the rate-limit `ApiError` to throw. -/
def checkRateLimit (now : Int) (st : ApiState) : Option ApiErr :=
  match st.rateLimitResetTime with
  | some t => if now < t then some (rateLimitErrorOf (t - now)) else none
  | none => none

/-- `parseRateLimitHeaders`: an explicit `Retry-After` sets the reset time
relative to now and takes priority over the absolute `X-RateLimit-Reset`. -/
def parseRateLimitHeaders (r : HttpResponse) (now : Int) (st : ApiState) : ApiState :=
  match r.retryAfter with
  | some ra => { rateLimitResetTime := some (now + ra * 1000) }
  | none =>
    match r.rateLimitReset with
    | some reset => { rateLimitResetTime := some (reset * 1000) }
    | none => st

/-- `errorData.error?.message?.includes('quota')`. -/
def bodyMentionsQuota (r : HttpResponse) : Bool :=
  match r.body with
  | some b =>
    match b.errMessage with
    | some m => strIncludes m "quota"
    | none => false
  | none => false

/-- `errorData.error?.message || \`HTTP status statusText\`` (an absent or
empty message falls back to the generic text). -/
def errMessageOr (r : HttpResponse) : String :=
  match r.body with
  | some b =>
    match b.errMessage with
    | some m => if m = "" then "HTTP " ++ toString r.status ++ ": " ++ r.statusText else m
    | none => "HTTP " ++ toString r.status ++ ": " ++ r.statusText
  | none => "HTTP " ++ toString r.status ++ ": " ++ r.statusText

/-- `handleErrorResponse`: classify a non-2xx response into the `ApiError` to
throw, updating `rateLimitResetTime` on HTTP 429 (`Retry-After` defaulting to
60 seconds). -/
def handleErrorResponse (r : HttpResponse) (now : Int) (st : ApiState) : ApiErr × ApiState :=
  if r.status = 429 then
    ({ message := RATE_LIMIT_EXCEEDED, status := some 429,
       response := some (r.body.getD {}), isRateLimit := true },
     { rateLimitResetTime := some (now + (r.retryAfter.getD 60) * 1000) })
  else if r.status = 403 ∧ bodyMentionsQuota r = true then
    ({ message := QUOTA_EXCEEDED, status := some 403,
       response := some (r.body.getD {}), isRateLimit := true }, st)
  else
    ({ message := errMessageOr r, status := some r.status,
       response := some (r.body.getD {}), isRateLimit := false }, st)

/-- The body of the `try` block of `fetchWithRetry` for one attempt: the
rate-limit check, then the HTTP call, then header parsing and error
classification.  `http url attempt` is the outcome the network yields for this
attempt, `now attempt` is `Date.now()` during it. -/
def attemptOnce (http : String → Nat → HttpOutcome) (now : Nat → Int) (url : String)
    (attempt : Nat) (st : ApiState) : Except FetchErr Nat × ApiState :=
  match checkRateLimit (now attempt) st with
  | some e => (Except.error (FetchErr.api e), st)
  | none =>
    match http url attempt with
    | HttpOutcome.abortError => (Except.error FetchErr.abortError, st)
    | HttpOutcome.fetchTypeError => (Except.error FetchErr.fetchTypeError, st)
    | HttpOutcome.otherError m => (Except.error (FetchErr.otherError m), st)
    | HttpOutcome.resp r =>
      let st1 := parseRateLimitHeaders r (now attempt) st
      if r.ok then (Except.ok r.data, st1)
      else
        let he := handleErrorResponse r (now attempt) st1
        (Except.error (FetchErr.api he.1), he.2)

/-- `shouldRetry`: no retry once `maxRetryAttempts - 1` attempts are used;
rate-limit and auth errors are never retried; `ApiError`s are retried exactly
when temporary; every non-`ApiError` exception is retried. -/
def shouldRetry (e : FetchErr) (attempt : Nat) : Bool :=
  if MAX_RETRY_ATTEMPTS - 1 ≤ attempt then false
  else
    match e with
    | FetchErr.api er =>
      if er.isRateLimited then false
      else if er.isAuthError then false
      else er.isTemporary
    | _ => true

/-- `normalizeError`: `ApiError`s pass through; `AbortError` becomes a
408 timeout; a fetch `TypeError` becomes a network error with status 0; any
other error keeps its message (falling back to the network message). -/
def normalizeError (e : FetchErr) : ApiErr :=
  match e with
  | FetchErr.api er => er
  | FetchErr.abortError => { message := TIMEOUT_ERROR, status := some 408 }
  | FetchErr.fetchTypeError => { message := NETWORK_ERROR, status := some 0 }
  | FetchErr.otherError m => { message := if m = "" then NETWORK_ERROR else m }

theorem shouldRetry_attempt_lt {e : FetchErr} {attempt : Nat}
    (h : shouldRetry e attempt = true) : attempt < MAX_RETRY_ATTEMPTS - 1 := by
  by_contra hc
  simp only [shouldRetry, if_pos (Nat.le_of_not_lt hc)] at h
  exact Bool.false_ne_true h

/-- `fetchWithRetry`: run one attempt; on an error that `shouldRetry` accepts,
recurse with `attempt + 1` (the backoff sleep does not change the observable
result), otherwise surface the normalized last error.  Returns the result and
the final shared state. -/
def fetchWithRetry (http : String → Nat → HttpOutcome) (now : Nat → Int) (url : String)
    (attempt : Nat) (st : ApiState) : Except ApiErr Nat × ApiState :=
  match attemptOnce http now url attempt st with
  | (Except.ok d, st1) => (Except.ok d, st1)
  | (Except.error e, st1) =>
    if h : shouldRetry e attempt = true then
      fetchWithRetry http now url (attempt + 1) st1
    else
      (Except.error (normalizeError e), st1)
termination_by MAX_RETRY_ATTEMPTS - attempt
decreasing_by
  have := shouldRetry_attempt_lt h
  omega

/-! ## Backoff (apiService.js lines 202-215) -/

/-- `calculateBackoffDelay`: exponential backoff clamped at `maxDelay`, with
the jitter term `delay * 0.25 * (rand - 0.5)` added and the result floored at
zero.  `rand` is the `Math.random()` draw; the arithmetic is exact for these
values, so rationals model the JavaScript numbers. -/
def calculateBackoffDelay (rand : ℚ) (attempt : Nat) : ℚ :=
  let baseDelay := INITIAL_RETRY_DELAY_MS
  let multiplier := EXPONENTIAL_BACKOFF_MULTIPLIER
  let maxDelay := MAX_RETRY_DELAY_MS
  let delay := min (baseDelay * multiplier ^ attempt) maxDelay
  let jitter := delay * 0.25 * (rand - 0.5)
  max (delay + jitter) 0

/-! ## Batch orchestrator (apiService.js lines 508-530) -/

/-- The chunking loop of `batchRequest`, with fuel: slice off `BATCH_SIZE`
requests while any remain.  The fuel (the list length) strictly dominates the
number of iterations. -/
def batchChunksGo (ρ : Type) : Nat → List ρ → List (List ρ)
  | 0, _ => []
  | fuel + 1, l =>
    if l.isEmpty then []
    else l.take BATCH_SIZE :: batchChunksGo ρ fuel (l.drop BATCH_SIZE)

/-- `requests.slice(i, i + BATCH_SIZE)` chunking of `batchRequest`. -/
def batchChunks {ρ : Type} (requests : List ρ) : List (List ρ) :=
  batchChunksGo ρ requests.length requests

/-- `batchRequest`: each chunk's requests are executed and their settled
results (`executeRequest(..).catch(error => ({ error }))`) concatenated in
order; `exec` is the per-request outcome (`Except.error` is the captured
`{ error }` value).  The inter-batch sleep does not change the results. -/
def batchRequest {ρ δ ε : Type} (exec : ρ → Except ε δ) (requests : List ρ) :
    List (Except ε δ) :=
  (batchChunks requests).flatMap (fun batch => batch.map exec)

/-! ## Concrete scenario data -/

/-- A timed event 09:00-10:00 on day 0 (instants in milliseconds of day 0). -/
def scenarioEvent1 : Event :=
  { start := some { dateTime := some ⟨0, 32400000⟩ },
    «end» := some { dateTime := some ⟨0, 36000000⟩ } }

/-- A timed event 14:00-15:00 on day 0. -/
def scenarioEvent2 : Event :=
  { start := some { dateTime := some ⟨0, 50400000⟩ },
    «end» := some { dateTime := some ⟨0, 54000000⟩ } }

/-- A malformed event: a timed start on day 0 but no `end` field. -/
def endlessEvent : Event :=
  { start := some { dateTime := some ⟨0, 32400000⟩ }, «end» := none }

/-! ## Helper lemmas -/

theorem generateDateRangeGo_mem (fuel : Nat) :
    ∀ (current endDate d : Nat), endDate + 1 - current ≤ fuel →
    (d ∈ generateDateRangeGo fuel current endDate ↔ current ≤ d ∧ d ≤ endDate) := by
  induction fuel with
  | zero =>
    intro current endDate d hf
    simp only [generateDateRangeGo, List.not_mem_nil, false_iff]
    omega
  | succ fuel ih =>
    intro current endDate d hf
    simp only [generateDateRangeGo]
    by_cases hc : current ≤ endDate
    · rw [if_pos hc]
      rw [List.mem_cons, ih (current + 1) endDate d (by omega)]
      omega
    · rw [if_neg hc]
      simp only [List.not_mem_nil, false_iff]
      omega

theorem generateDateRange_mem (startDate endDate d : Nat) :
    d ∈ generateDateRange startDate endDate ↔ startDate ≤ d ∧ d ≤ endDate :=
  generateDateRangeGo_mem (endDate + 1 - startDate) startDate endDate d (Nat.le_refl _)

theorem uniqueFirstGo_mem (l : List Nat) :
    ∀ (acc : List Nat) (x : Nat), x ∈ uniqueFirstGo acc l ↔ x ∈ acc ∨ x ∈ l := by
  induction l with
  | nil => intro acc x; simp [uniqueFirstGo]
  | cons d rest ih =>
    intro acc x
    simp only [uniqueFirstGo]
    by_cases hd : d ∈ acc
    · rw [if_pos hd, ih]
      simp only [List.mem_cons]
      constructor
      · rintro (h | h)
        · exact Or.inl h
        · exact Or.inr (Or.inr h)
      · rintro (h | h | h)
        · exact Or.inl h
        · exact Or.inl (h ▸ hd)
        · exact Or.inr h
    · rw [if_neg hd, ih]
      simp only [List.mem_append, List.mem_singleton, List.mem_cons]
      tauto

theorem uniqueFirstGo_nodup (l : List Nat) :
    ∀ acc : List Nat, acc.Nodup → (uniqueFirstGo acc l).Nodup := by
  induction l with
  | nil => intro acc h; exact h
  | cons d rest ih =>
    intro acc h
    simp only [uniqueFirstGo]
    by_cases hd : d ∈ acc
    · rw [if_pos hd]; exact ih acc h
    · rw [if_neg hd]
      refine ih (acc ++ [d]) ?_
      simp [List.nodup_append, h, hd]

/-! ## C2: the two-event scenario -/

/-- C2: for two timed events 09:00-10:00 and 14:00-15:00 on day 0, the busy
intervals are 08:40-10:20 (31200000-37200000 ms) and 13:40-15:20
(49200000-55200000 ms), and with no preferred windows the emitted free slots of
that day are exactly 10:20-13:40 (minute-of-day 620-820) and 15:20-22:00
(920-1320). -/
theorem C2_scenario :
    dayBusyIntervals 0 [scenarioEvent1, scenarioEvent2] 0 =
      Except.ok [⟨31200000, 37200000⟩, ⟨49200000, 55200000⟩] ∧
    calculateAvailableSlots 0 [scenarioEvent1, scenarioEvent2] 0 0 [] =
      Except.ok [{ date := 0,
                   slots := [⟨620, 820, false⟩, ⟨920, 1320, false⟩],
                   totalSlots := 2, totalMinutes := 600 }] :=
  ⟨rfl, rfl⟩

/-! ## C3: target-date selection -/

/-- C3: with preferred windows present, the dates the calculator iterates over
are exactly the distinct dates named by the windows; otherwise they are every
date of `[startDate, endDate]` inclusive. -/
theorem C3_target_dates (timeSlots : List TimeSlot) (startDate endDate : Nat) :
    (timeSlots ≠ [] →
      (targetDates timeSlots startDate endDate).Nodup ∧
      ∀ d, d ∈ targetDates timeSlots startDate endDate ↔ ∃ t ∈ timeSlots, t.date = d) ∧
    (timeSlots = [] →
      ∀ d, d ∈ targetDates timeSlots startDate endDate ↔ startDate ≤ d ∧ d ≤ endDate) := by
  constructor
  · intro hne
    have hlen : 0 < timeSlots.length := List.length_pos.mpr hne
    rw [targetDates, if_pos hlen]
    refine ⟨uniqueFirstGo_nodup _ [] List.nodup_nil, ?_⟩
    intro d
    rw [uniqueFirst, uniqueFirstGo_mem]
    simp [List.mem_map]
  · intro he
    subst he
    intro d
    rw [targetDates]
    simp only [List.length_nil, Nat.lt_irrefl, if_false]
    exact generateDateRange_mem startDate endDate d

/-- Witness for C3 at concrete inputs: in range mode the dates 2..4 are
examined and 5 is not; in preferred-window mode exactly the named date is. -/
theorem C3_witness :
    (3 ∈ targetDates ([] : List TimeSlot) 2 4) ∧
    (5 ∉ targetDates ([] : List TimeSlot) 2 4) ∧
    (7 ∈ targetDates [⟨7, 600, 660⟩] 2 4) := by
  refine ⟨?_, ?_, ?_⟩
  · exact ((C3_target_dates [] 2 4).2 rfl 3).mpr (by decide)
  · intro hmem
    have := ((C3_target_dates [] 2 4).2 rfl 5).mp hmem
    omega
  · exact (((C3_target_dates [⟨7, 600, 660⟩] 2 4).1 (by decide)).2 7).mpr
      ⟨⟨7, 600, 660⟩, List.mem_singleton.mpr rfl, rfl⟩

/-! ## C1: minimum slot duration -/

theorem min_duration_gap {t : Int} (h : (30 : Int) ≤ t.tdiv 60000) :
    (1800000 : Int) ≤ t := by
  rcases t with n | n
  · have he : (Int.ofNat n).tdiv 60000 = ((n / 60000 : Nat) : Int) := rfl
    rw [he] at h
    have h2 : 30 ≤ n / 60000 := by exact_mod_cast h
    have h3 := (Nat.le_div_iff_mul_le (by norm_num : 0 < 60000)).mp h2
    show (1800000 : Int) ≤ (n : Int)
    omega
  · have he : (Int.negSucc n).tdiv 60000 = -(((n + 1) / 60000 : Nat) : Int) := rfl
    rw [he] at h
    have hnn : (0 : Int) ≤ (((n + 1) / 60000 : Nat) : Int) := Int.natCast_nonneg _
    exact absurd h (by omega)

/-- Two instants of the same (nonnegative) day that are at least 30 minutes
apart have `HH:mm` renderings at least 30 minutes apart. -/
theorem fmtHM_gap {d : Nat} {s e : Int}
    (hds : (d : Int) * msPerDay ≤ s) (hse : s + 1800000 ≤ e)
    (hed : e < (d : Int) * msPerDay + msPerDay) :
    fmtHM s + 30 ≤ fmtHM e := by
  simp only [msPerDay] at hds hed
  simp only [fmtHM]
  omega

theorem sweepEvents_cur_le (re : Int) :
    ∀ (evs : List BusyInterval) (cur : Int), cur ≤ (sweepEvents re cur evs).1 := by
  intro evs
  induction evs with
  | nil => intro cur; exact le_refl cur
  | cons ev rest ih =>
    intro cur
    simp only [sweepEvents]
    by_cases h1 : ev.«end» < cur
    · rw [if_pos h1]
      exact ih cur
    · rw [if_neg h1]
      by_cases h2 : re < ev.start
      · rw [if_pos h2]
      · rw [if_neg h2]
        have hcur1 : cur ≤ (if cur < ev.«end» then ev.«end» else cur) := by
          by_cases h : cur < ev.«end»
          · rw [if_pos h]; exact le_of_lt h
          · rw [if_neg h]
        by_cases h3 : re < (if cur < ev.«end» then ev.«end» else cur)
        · rw [if_pos h3]
          exact hcur1
        · rw [if_neg h3]
          exact le_trans hcur1 (ih _)

theorem sweepEvents_mem (re : Int) :
    ∀ (evs : List BusyInterval) (cur : Int) (x : Slot),
    x ∈ (sweepEvents re cur evs).2 →
    ∃ s e : Int,
      x = { startTime := fmtHM s, endTime := fmtHM e, isContinuous := false } ∧
      cur ≤ s ∧ s + 1800000 ≤ e ∧ e ≤ re := by
  intro evs
  induction evs with
  | nil => intro cur x hx; exact absurd hx (List.not_mem_nil x)
  | cons ev rest ih =>
    intro cur x hx
    simp only [sweepEvents] at hx
    by_cases h1 : ev.«end» < cur
    · rw [if_pos h1] at hx
      exact ih cur x hx
    · rw [if_neg h1] at hx
      by_cases h2 : re < ev.start
      · rw [if_pos h2] at hx
        exact absurd hx (List.not_mem_nil x)
      · rw [if_neg h2] at hx
        have hcur1 : cur ≤ (if cur < ev.«end» then ev.«end» else cur) := by
          by_cases h : cur < ev.«end»
          · rw [if_pos h]; exact le_of_lt h
          · rw [if_neg h]
        have hemit : x ∈ (if cur < ev.start then
              (if (MIN_SLOT_DURATION : Int) ≤
                  diffMinutes (if ev.start < re then ev.start else re) cur then
                [{ startTime := fmtHM cur,
                   endTime := fmtHM (if ev.start < re then ev.start else re) }]
              else [])
            else ([] : List Slot)) →
            ∃ s e : Int,
              x = { startTime := fmtHM s, endTime := fmtHM e, isContinuous := false } ∧
              cur ≤ s ∧ s + 1800000 ≤ e ∧ e ≤ re := by
          intro hx
          by_cases hg : cur < ev.start
          · rw [if_pos hg] at hx
            by_cases hd : (MIN_SLOT_DURATION : Int) ≤
                diffMinutes (if ev.start < re then ev.start else re) cur
            · rw [if_pos hd] at hx
              have hxeq := List.mem_singleton.mp hx
              refine ⟨cur, if ev.start < re then ev.start else re, hxeq, le_refl cur, ?_, ?_⟩
              · have h30 : (MIN_SLOT_DURATION : Int) = 30 := rfl
                rw [h30] at hd
                have := min_duration_gap hd
                simp only [diffMinutes] at this hd
                omega
              · by_cases hsr : ev.start < re
                · rw [if_pos hsr]
                  exact le_of_lt hsr
                · rw [if_neg hsr]
            · rw [if_neg hd] at hx
              exact absurd hx (List.not_mem_nil x)
          · rw [if_neg hg] at hx
            exact absurd hx (List.not_mem_nil x)
        by_cases h3 : re < (if cur < ev.«end» then ev.«end» else cur)
        · rw [if_pos h3] at hx
          exact hemit hx
        · rw [if_neg h3] at hx
          rcases List.mem_append.mp hx with hx | hx
          · exact hemit hx
          · obtain ⟨s, e, hxe, hcs, hse, her⟩ := ih _ x hx
            exact ⟨s, e, hxe, le_trans hcur1 hcs, hse, her⟩

theorem slotRanges_inDay (d : Nat) (slotsForDate : List TimeSlot)
    (hwf : ∀ t ∈ slotsForDate, t.start < 1440 ∧ t.«end» < 1440) :
    ∀ p ∈ slotRanges d slotsForDate,
      (d : Int) * msPerDay ≤ p.1 ∧ p.2 < (d : Int) * msPerDay + msPerDay := by
  intro p hp
  rw [slotRanges] at hp
  by_cases hl : 0 < slotsForDate.length
  · rw [if_pos hl] at hp
    obtain ⟨t, ht, hpt⟩ := List.mem_map.mp hp
    obtain ⟨h1, h2⟩ := hwf t ht
    rw [← hpt]
    simp only [msPerDay, msPerMinute]
    constructor
    · omega
    · omega
  · rw [if_neg hl] at hp
    rw [List.mem_singleton] at hp
    rw [hp]
    simp only [msPerDay, msPerMinute, CORE_TIME_START_HOUR, CORE_TIME_END_HOUR]
    constructor
    · omega
    · omega

theorem windowSlots_minDur (evs : List BusyInterval) (d : Nat) (rs re : Int)
    (hrs : (d : Int) * msPerDay ≤ rs) (hre : re < (d : Int) * msPerDay + msPerDay) :
    ∀ x ∈ windowSlots evs rs re, x.startTime + 30 ≤ x.endTime := by
  intro x hx
  simp only [windowSlots] at hx
  rcases List.mem_append.mp hx with hx | hx
  · obtain ⟨s, e, hxe, hcs, hse, her⟩ := sweepEvents_mem re evs rs x hx
    rw [hxe]
    exact fmtHM_gap (le_trans hrs hcs) hse (lt_of_le_of_lt her hre)
  · by_cases h1 : (sweepEvents re rs evs).1 < re
    · rw [if_pos h1] at hx
      by_cases h2 : (MIN_SLOT_DURATION : Int) ≤ diffMinutes re (sweepEvents re rs evs).1
      · rw [if_pos h2] at hx
        rw [List.mem_singleton.mp hx]
        have h30 : (MIN_SLOT_DURATION : Int) = 30 := rfl
        rw [h30] at h2
        have hgap := min_duration_gap h2
        simp only [diffMinutes] at hgap h2
        refine fmtHM_gap (le_trans hrs (sweepEvents_cur_le re evs rs)) (by omega) hre
      · rw [if_neg h2] at hx
        exact absurd hx (List.not_mem_nil x)
    · rw [if_neg h1] at hx
      exact absurd hx (List.not_mem_nil x)

theorem mergeLoop_minDur :
    ∀ (l : List Slot) (cur : Slot), cur.startTime + 30 ≤ cur.endTime →
    (∀ s ∈ l, s.startTime + 30 ≤ s.endTime) →
    ∀ x ∈ mergeLoop cur l, x.startTime + 30 ≤ x.endTime := by
  intro l
  induction l with
  | nil =>
    intro cur hcur _ x hx
    rw [mergeLoop, List.mem_singleton] at hx
    rw [hx]
    exact hcur
  | cons s rest ih =>
    intro cur hcur hl x hx
    rw [mergeLoop] at hx
    by_cases hm : s.startTime ≤ cur.endTime
    · rw [if_pos hm] at hx
      refine ih _ ?_ (fun b hb => hl b (List.mem_cons_of_mem s hb)) x hx
      have : cur.endTime ≤ max cur.endTime s.endTime := le_max_left _ _
      simpa using le_trans hcur this
    · rw [if_neg hm] at hx
      rcases List.mem_cons.mp hx with hx | hx
      · rw [hx]; exact hcur
      · exact ih s (hl s (List.mem_cons_self s rest))
          (fun b hb => hl b (List.mem_cons_of_mem s hb)) x hx

theorem mergeContinuousSlots_minDur (slots : List Slot)
    (h : ∀ s ∈ slots, s.startTime + 30 ≤ s.endTime) :
    ∀ x ∈ mergeContinuousSlots slots, x.startTime + 30 ≤ x.endTime := by
  intro x hx
  unfold mergeContinuousSlots at hx
  rcases hs : List.insertionSort slotLE slots with _ | ⟨s, rest⟩
  · rw [hs] at hx
    exact absurd hx (List.not_mem_nil x)
  · rw [hs] at hx
    have hmem : ∀ y ∈ s :: rest, y.startTime + 30 ≤ y.endTime := by
      intro y hy
      refine h y ?_
      have hy2 : y ∈ List.insertionSort slotLE slots := hs ▸ hy
      exact (List.perm_insertionSort slotLE slots).subset hy2
    exact mergeLoop_minDur rest s (hmem s (List.mem_cons_self s rest))
      (fun b hb => hmem b (List.mem_cons_of_mem s hb)) x hx

theorem calculateDayAvailableSlots_minDur (now : Int) (events : List Event) (d : Nat)
    (slotsForDate : List TimeSlot)
    (hwf : ∀ t ∈ slotsForDate, t.start < 1440 ∧ t.«end» < 1440)
    (l : List Slot) (hok : calculateDayAvailableSlots now events d slotsForDate = Except.ok l) :
    ∀ x ∈ l, x.startTime + 30 ≤ x.endTime := by
  unfold calculateDayAvailableSlots at hok
  rcases hb : dayBusyIntervals now events d with e | dayEvents
  · rw [hb] at hok
    exact absurd hok (by simp)
  · rw [hb] at hok
    have hl : (slotRanges d slotsForDate).flatMap (fun r => windowSlots dayEvents r.1 r.2) = l := by
      simpa using hok
    intro x hx
    rw [← hl] at hx
    obtain ⟨r, hr, hxr⟩ := List.mem_flatMap.mp hx
    obtain ⟨h1, h2⟩ := slotRanges_inDay d slotsForDate hwf r hr
    exact windowSlots_minDur dayEvents d r.1 r.2 h1 h2 x hxr

theorem calcDays_minDur (now : Int) (events : List Event) (timeSlots : List TimeSlot)
    (hwf : ∀ t ∈ timeSlots, t.start < 1440 ∧ t.«end» < 1440) :
    ∀ (dates : List Nat) (res : List DayResult),
    calcDays now events timeSlots dates = Except.ok res →
    ∀ day ∈ res, ∀ x ∈ day.slots, x.startTime + 30 ≤ x.endTime := by
  intro dates
  induction dates with
  | nil =>
    intro res h day hday
    rw [calcDays] at h
    have : ([] : List DayResult) = res := by simpa using h
    rw [← this] at hday
    exact absurd hday (List.not_mem_nil day)
  | cons d ds ih =>
    intro res h day hday x hx
    rw [calcDays] at h
    rcases hd0 : calculateDayAvailableSlots now events d
        (timeSlots.filter fun t => t.date == d) with e | daySlots
    · rw [hd0] at h
      exact absurd h (by simp)
    · rw [hd0] at h
      rcases hrest : calcDays now events timeSlots ds with e | rest
      · rw [hrest] at h
        exact absurd h (by simp)
      · rw [hrest] at h
        have hres : (if 0 < daySlots.length then mkDayResult d daySlots :: rest else rest)
            = res := by simpa using h
        rw [← hres] at hday
        have hwf2 : ∀ t ∈ timeSlots.filter (fun t => t.date == d),
            t.start < 1440 ∧ t.«end» < 1440 :=
          fun t ht => hwf t (List.mem_filter.mp ht).1
        by_cases hc : 0 < daySlots.length
        · rw [if_pos hc] at hday
          rcases List.mem_cons.mp hday with hday | hday
          · have hslots : day.slots = mergeContinuousSlots daySlots := by
              rw [hday, mkDayResult]
            rw [hslots] at hx
            exact mergeContinuousSlots_minDur daySlots
              (calculateDayAvailableSlots_minDur now events d _ hwf2 daySlots hd0) x hx
          · exact ih rest hrest day hday x hx
        · rw [if_neg hc] at hday
          exact ih rest hrest day hday x hx

/-- C1: every `FreeSlot` in the `DayResult`s returned by
`calculateAvailableSlots` — i.e. every slot surviving
`calculateDayAvailableSlots` and the subsequent `mergeContinuousSlots` pass —
is at least `MIN_SLOT_DURATION = 30` minutes long, for every event list, date
range and list of preferred windows (whose `HH:mm` times are minute-of-day
values below 1440). -/
theorem C1_min_slot_duration (now : Int) (events : List Event) (startDate endDate : Nat)
    (timeSlots : List TimeSlot)
    (hwf : ∀ t ∈ timeSlots, t.start < 1440 ∧ t.«end» < 1440)
    (res : List DayResult)
    (hok : calculateAvailableSlots now events startDate endDate timeSlots = Except.ok res) :
    ∀ day ∈ res, ∀ x ∈ day.slots, x.startTime + MIN_SLOT_DURATION ≤ x.endTime := by
  have h30 : MIN_SLOT_DURATION = 30 := rfl
  rw [h30]
  exact calcDays_minDur now events timeSlots hwf
    (targetDates timeSlots startDate endDate) res hok

/-- Witness for C1: the scenario events with the preferred window 10:00-15:00
yield the single 10:20-13:40 slot, which is at least 30 minutes long. -/
theorem C1_witness :
    calculateAvailableSlots 0 [scenarioEvent1, scenarioEvent2] 0 0 [⟨0, 600, 900⟩] =
      Except.ok [{ date := 0, slots := [⟨620, 820, false⟩],
                   totalSlots := 1, totalMinutes := 200 }] ∧
    ∀ day ∈ [({ date := 0, slots := [⟨620, 820, false⟩],
                totalSlots := 1, totalMinutes := 200 } : DayResult)],
      ∀ x ∈ day.slots, x.startTime + MIN_SLOT_DURATION ≤ x.endTime := by
  refine ⟨rfl, ?_⟩
  exact C1_min_slot_duration 0 [scenarioEvent1, scenarioEvent2] 0 0 [⟨0, 600, 900⟩]
    (by decide) _ rfl

/-! ## C9: malformed events -/

/-- C9 counterexample: an event with a timed start on the target date but a
missing `end` field makes the whole day computation (and the whole
availability computation) fail with the modelled `TypeError`, instead of being
silently excluded. -/
theorem C9_counterexample :
    calculateDayAvailableSlots 0 [endlessEvent] 0 [] = Except.error () ∧
    calculateAvailableSlots 0 [endlessEvent] 0 0 [] = Except.error () :=
  ⟨rfl, rfl⟩

theorem eventMatchesDate_hasStartInfo (d : Nat) (e : Event)
    (h : eventMatchesDate d e = true) : eventHasStartInfo e = true := by
  obtain ⟨st, en⟩ := e
  cases st with
  | none => simp [eventMatchesDate] at h
  | some s =>
    obtain ⟨sdate, sdt⟩ := s
    cases sdate with
    | some x => simp [eventHasStartInfo]
    | none =>
      cases sdt with
      | none => simp [eventMatchesDate] at h
      | some dt => simp [eventHasStartInfo]

theorem filter_matches_startInfo (d : Nat) (events : List Event) :
    (events.filter eventHasStartInfo).filter (eventMatchesDate d) =
      events.filter (eventMatchesDate d) := by
  rw [List.filter_filter]
  refine List.filter_congr ?_
  intro e _
  cases hm : eventMatchesDate d e
  · simp
  · simp [eventMatchesDate_hasStartInfo d e hm]

theorem calcDays_congr (now : Int) (ev1 ev2 : List Event) (timeSlots : List TimeSlot)
    (h : ∀ (d : Nat) (sfd : List TimeSlot),
      calculateDayAvailableSlots now ev1 d sfd = calculateDayAvailableSlots now ev2 d sfd) :
    ∀ dates : List Nat, calcDays now ev1 timeSlots dates = calcDays now ev2 timeSlots dates := by
  intro dates
  induction dates with
  | nil => rfl
  | cons d ds ih =>
    simp only [calcDays, h d, ih]

/-- C9 amended: events missing their `start` field (or whose start names
neither a date nor a date-time) are silently excluded and have no effect on
the computed slots — removing them first changes nothing — whereas (per the
counterexample) an event with a timed start on the target date but a missing
`end` makes the computation fail. -/
theorem C9_amended (now : Int) (events : List Event) (d startDate endDate : Nat)
    (slotsForDate : List TimeSlot) (timeSlots : List TimeSlot) :
    calculateDayAvailableSlots now (events.filter eventHasStartInfo) d slotsForDate =
      calculateDayAvailableSlots now events d slotsForDate ∧
    calculateAvailableSlots now (events.filter eventHasStartInfo) startDate endDate timeSlots =
      calculateAvailableSlots now events startDate endDate timeSlots := by
  have hday : ∀ (dd : Nat) (sfd : List TimeSlot),
      calculateDayAvailableSlots now (events.filter eventHasStartInfo) dd sfd =
        calculateDayAvailableSlots now events dd sfd := by
    intro dd sfd
    unfold calculateDayAvailableSlots dayBusyIntervals
    rw [filter_matches_startInfo]
  exact ⟨hday d slotsForDate,
    calcDays_congr now _ events timeSlots hday (targetDates timeSlots startDate endDate)⟩

/-! ## C4, C5: rate limiting and retry policy -/

theorem shouldRetry_blocked (er : ApiErr) (a : Nat)
    (h : er.isRateLimited = true ∨ er.isAuthError = true) :
    shouldRetry (FetchErr.api er) a = false := by
  rw [shouldRetry]
  split
  · rfl
  · show (if er.isRateLimited = true then false
        else if er.isAuthError = true then false else er.isTemporary) = false
    rcases h with h | h
    · rw [if_pos h]
    · by_cases hrl : er.isRateLimited = true
      · rw [if_pos hrl]
      · rw [if_neg hrl, if_pos h]

theorem fetchWithRetry_no_retry (http : String → Nat → HttpOutcome) (now : Nat → Int)
    (url : String) (a : Nat) (st st2 : ApiState) (e : FetchErr)
    (hao : attemptOnce http now url a st = (Except.error e, st2))
    (hsr : shouldRetry e a = false) :
    fetchWithRetry http now url a st = (Except.error (normalizeError e), st2) := by
  rw [fetchWithRetry.eq_def, hao]
  show (if h : shouldRetry e a = true then fetchWithRetry http now url (a + 1) st2
      else (Except.error (normalizeError e), st2)) = (Except.error (normalizeError e), st2)
  rw [dif_neg (by simp [hsr])]

theorem checkRateLimit_future {st : ApiState} {t nowv : Int}
    (hset : st.rateLimitResetTime = some t) (hfut : nowv < t) :
    checkRateLimit nowv st = some (rateLimitErrorOf (t - nowv)) := by
  rw [checkRateLimit, hset]
  show (if nowv < t then some (rateLimitErrorOf (t - nowv)) else none) =
    some (rateLimitErrorOf (t - nowv))
  rw [if_pos hfut]

/-- C4: whenever the shared `rateLimitResetTime` is set and in the future,
`fetchWithRetry` (for any URL and any network behaviour) fails immediately
with the rate-limit `ApiError` carrying the remaining wait, leaves the state
unchanged, performs no HTTP call (the result does not depend on the network
oracle at all), and is not retried. -/
theorem C4_rate_limit_blocks (http : String → Nat → HttpOutcome) (now : Nat → Int)
    (url : String) (attempt : Nat) (st : ApiState) (t : Int)
    (hset : st.rateLimitResetTime = some t) (hfut : now attempt < t) :
    fetchWithRetry http now url attempt st =
      (Except.error (rateLimitErrorOf (t - now attempt)), st) ∧
    (rateLimitErrorOf (t - now attempt)).isRateLimit = true ∧
    (rateLimitErrorOf (t - now attempt)).status = some 429 ∧
    ∀ http2 : String → Nat → HttpOutcome,
      fetchWithRetry http2 now url attempt st = fetchWithRetry http now url attempt st := by
  have key : ∀ h3 : String → Nat → HttpOutcome,
      fetchWithRetry h3 now url attempt st =
        (Except.error (rateLimitErrorOf (t - now attempt)), st) := by
    intro h3
    have hao : attemptOnce h3 now url attempt st =
        (Except.error (FetchErr.api (rateLimitErrorOf (t - now attempt))), st) := by
      rw [attemptOnce, checkRateLimit_future hset hfut]
    have hsr : shouldRetry (FetchErr.api (rateLimitErrorOf (t - now attempt))) attempt = false :=
      shouldRetry_blocked _ _ (Or.inl rfl)
    exact fetchWithRetry_no_retry h3 now url attempt st st _ hao hsr
  exact ⟨key http, rfl, rfl, fun http2 => (key http2).trans (key http).symm⟩

/-- Witness for C4: with the reset time 1000 in the future of `Date.now() = 0`,
the fetch fails immediately with the rate-limit error, for an oracle that would
otherwise time out. -/
theorem C4_witness :
    fetchWithRetry (fun _ _ => HttpOutcome.abortError) (fun _ => 0) "u" 0
        { rateLimitResetTime := some 1000 } =
      (Except.error (rateLimitErrorOf 1000), { rateLimitResetTime := some 1000 }) := by
  have h := (C4_rate_limit_blocks (fun _ _ => HttpOutcome.abortError) (fun _ => 0) "u" 0
    { rateLimitResetTime := some 1000 } 1000 rfl (by norm_num)).1
  simpa using h

theorem fetchWithRetry_http_agree (now : Nat → Int) (url : String) :
    ∀ (k a : Nat) (st : ApiState) (http http2 : String → Nat → HttpOutcome),
    MAX_RETRY_ATTEMPTS - a ≤ k → a < MAX_RETRY_ATTEMPTS →
    (∀ i, i < MAX_RETRY_ATTEMPTS → http url i = http2 url i) →
    fetchWithRetry http now url a st = fetchWithRetry http2 now url a st := by
  intro k
  induction k with
  | zero =>
    intro a st http http2 hk ha _
    exact absurd ha (by omega)
  | succ k ihk =>
    intro a st http http2 hk ha hagree
    have hao : attemptOnce http now url a st = attemptOnce http2 now url a st := by
      rw [attemptOnce, attemptOnce, hagree a ha]
    rcases hres : attemptOnce http now url a st with ⟨res, st1⟩
    have hres2 : attemptOnce http2 now url a st = (res, st1) := by rw [← hao, hres]
    rw [fetchWithRetry.eq_def, fetchWithRetry.eq_def, hres, hres2]
    cases res with
    | ok d => rfl
    | error e =>
      show (if h : shouldRetry e a = true then fetchWithRetry http now url (a + 1) st1
          else (Except.error (normalizeError e), st1)) =
        (if h : shouldRetry e a = true then fetchWithRetry http2 now url (a + 1) st1
          else (Except.error (normalizeError e), st1))
      by_cases hsr : shouldRetry e a = true
      · rw [dif_pos hsr, dif_pos hsr]
        have hlt := shouldRetry_attempt_lt hsr
        exact ihk (a + 1) st1 http http2 (by omega) (by omega) hagree
      · rw [dif_neg hsr, dif_neg hsr]

/-- C5: the retry policy — `shouldRetry` accepts an error only below the
attempt cap and, for `ApiError`s, only temporary ones that are neither
rate-limited nor auth failures (non-`ApiError`s are the network-level
exception shapes); rate-limited and auth errors are never retried; the errors
classified from HTTP 429, 401 and 403 responses (including quota-exceeded
bodies) are never retried; starting from attempt 0 the loop consults the
network on at most `MAX_RETRY_ATTEMPTS = 3` attempts; and a non-retried error
is surfaced, normalized, as the final result. -/
theorem C5_retry_policy :
    (∀ (e : FetchErr) (a : Nat), shouldRetry e a = true →
      a + 1 < MAX_RETRY_ATTEMPTS ∧
      ∀ er, e = FetchErr.api er →
        er.isTemporary = true ∧ er.isRateLimited = false ∧ er.isAuthError = false) ∧
    (∀ (er : ApiErr) (a : Nat), er.isRateLimited = true ∨ er.isAuthError = true →
      shouldRetry (FetchErr.api er) a = false) ∧
    (∀ (r : HttpResponse) (nowv : Int) (st : ApiState) (a : Nat),
      r.status = 429 ∨ r.status = 401 ∨ r.status = 403 →
      shouldRetry (FetchErr.api (handleErrorResponse r nowv st).1) a = false) ∧
    (∀ (http http2 : String → Nat → HttpOutcome) (now : Nat → Int) (url : String)
      (st : ApiState),
      (∀ i, i < MAX_RETRY_ATTEMPTS → http url i = http2 url i) →
      fetchWithRetry http now url 0 st = fetchWithRetry http2 now url 0 st) ∧
    (∀ (http : String → Nat → HttpOutcome) (now : Nat → Int) (url : String) (a : Nat)
      (st st2 : ApiState) (e : FetchErr),
      attemptOnce http now url a st = (Except.error e, st2) →
      shouldRetry e a = false →
      fetchWithRetry http now url a st = (Except.error (normalizeError e), st2)) := by
  refine ⟨?_, fun er a h => shouldRetry_blocked er a h, ?_, ?_, ?_⟩
  · intro e a h
    have hlt := shouldRetry_attempt_lt h
    refine ⟨by have hM : MAX_RETRY_ATTEMPTS = 3 := rfl; omega, ?_⟩
    intro er he
    subst he
    rw [shouldRetry, if_neg (Nat.not_le.mpr hlt)] at h
    have h2 : (if er.isRateLimited = true then false
        else if er.isAuthError = true then false else er.isTemporary) = true := h
    by_cases hrl : er.isRateLimited = true
    · rw [if_pos hrl] at h2
      exact absurd h2 Bool.false_ne_true
    · rw [if_neg hrl] at h2
      by_cases hau : er.isAuthError = true
      · rw [if_pos hau] at h2
        exact absurd h2 Bool.false_ne_true
      · rw [if_neg hau] at h2
        exact ⟨h2, Bool.not_eq_true _ ▸ eq_false_of_ne_true hrl,
          eq_false_of_ne_true hau⟩
  · intro r nowv st a hst
    rcases hst with h429 | h401 | h403
    · rw [handleErrorResponse, if_pos h429]
      exact shouldRetry_blocked _ a (Or.inl rfl)
    · have hn429 : ¬ r.status = 429 := by rw [h401]; norm_num
      have hnq : ¬ (r.status = 403 ∧ bodyMentionsQuota r = true) := by
        rintro ⟨hc, _⟩
        rw [h401] at hc
        norm_num at hc
      rw [handleErrorResponse, if_neg hn429, if_neg hnq]
      refine shouldRetry_blocked _ a (Or.inr ?_)
      rw [ApiErr.isAuthError, h401]
      rfl
    · have hn429 : ¬ r.status = 429 := by rw [h403]; norm_num
      by_cases hq : bodyMentionsQuota r = true
      · rw [handleErrorResponse, if_neg hn429, if_pos ⟨h403, hq⟩]
        exact shouldRetry_blocked _ a (Or.inl rfl)
      · have hnq : ¬ (r.status = 403 ∧ bodyMentionsQuota r = true) := by
          rintro ⟨_, hc⟩
          exact hq hc
        rw [handleErrorResponse, if_neg hn429, if_neg hnq]
        refine shouldRetry_blocked _ a (Or.inr ?_)
        rw [ApiErr.isAuthError, h403]
        rfl
  · intro http http2 now url st hagree
    exact fetchWithRetry_http_agree now url MAX_RETRY_ATTEMPTS 0 st http http2
      (by omega) (by have hM : MAX_RETRY_ATTEMPTS = 3 := rfl; omega) hagree
  · intro http now url a st st2 e hao hsr
    exact fetchWithRetry_no_retry http now url a st st2 e hao hsr

/-- Witness for C5: a rate-limit-flagged error is not retried even on the
first attempt. -/
theorem C5_witness :
    shouldRetry (FetchErr.api
      { message := "x", status := some 429, response := none, isRateLimit := true }) 0 = false :=
  C5_retry_policy.2.1
    { message := "x", status := some 429, response := none, isRateLimit := true } 0
    (Or.inl rfl)

/-! ## C6: backoff jitter -/

/-- C6 counterexample: at attempt 0 the base delay is 1000 ms and the claim
says the delays range over `[750, 1250]`; but the extreme draw `rand = 0`
yields 875, and no draw in `[0, 1]` yields the claimed minimum 750 — the
jitter amplitude is 12.5 percent, not 25 percent. -/
theorem C6_counterexample :
    calculateBackoffDelay 0 0 = 875 ∧
    ¬ ∃ r : ℚ, 0 ≤ r ∧ r ≤ 1 ∧ calculateBackoffDelay r 0 = 750 := by
  constructor
  · simp only [calculateBackoffDelay, INITIAL_RETRY_DELAY_MS,
      EXPONENTIAL_BACKOFF_MULTIPLIER, MAX_RETRY_DELAY_MS, pow_zero, mul_one]
    rw [min_eq_left (by norm_num)]
    rw [max_eq_left (by norm_num)]
    norm_num
  · rintro ⟨r, hr0, hr1, heq⟩
    simp only [calculateBackoffDelay, INITIAL_RETRY_DELAY_MS,
      EXPONENTIAL_BACKOFF_MULTIPLIER, MAX_RETRY_DELAY_MS, pow_zero, mul_one] at heq
    rw [min_eq_left (by norm_num)] at heq
    rw [max_eq_left (by nlinarith)] at heq
    nlinarith

/-- C6 amended: the delay equals the clamped base
`min(initialDelay * multiplier ^ attempt, maxDelay)` perturbed by a uniform
jitter of ±12.5 percent of that base (`delay * 0.25 * (rand - 0.5)` for a
draw in `[0, 1)`), floored at zero; so over all draws it ranges over
`[0.875 * base, 1.125 * base)`, and always lies within
`[0, maxDelay * 1.25]`. -/
theorem C6_backoff_jitter (r : ℚ) (attempt : Nat) (h0 : 0 ≤ r) (h1 : r < 1) :
    calculateBackoffDelay r attempt =
      min (INITIAL_RETRY_DELAY_MS * EXPONENTIAL_BACKOFF_MULTIPLIER ^ attempt)
          MAX_RETRY_DELAY_MS * (7 / 8 + r / 4) ∧
    min (INITIAL_RETRY_DELAY_MS * EXPONENTIAL_BACKOFF_MULTIPLIER ^ attempt)
        MAX_RETRY_DELAY_MS * (7 / 8) ≤ calculateBackoffDelay r attempt ∧
    calculateBackoffDelay r attempt <
      min (INITIAL_RETRY_DELAY_MS * EXPONENTIAL_BACKOFF_MULTIPLIER ^ attempt)
          MAX_RETRY_DELAY_MS * (9 / 8) ∧
    0 ≤ calculateBackoffDelay r attempt ∧
    calculateBackoffDelay r attempt ≤ MAX_RETRY_DELAY_MS * (5 / 4) := by
  have hM : MAX_RETRY_DELAY_MS = 5000 := rfl
  have hI : INITIAL_RETRY_DELAY_MS = 1000 := rfl
  have hE : EXPONENTIAL_BACKOFF_MULTIPLIER = 2 := rfl
  have hpow : (1 : ℚ) ≤ 2 ^ attempt := one_le_pow₀ (by norm_num)
  have hBlow : (1000 : ℚ) ≤
      min (INITIAL_RETRY_DELAY_MS * EXPONENTIAL_BACKOFF_MULTIPLIER ^ attempt)
        MAX_RETRY_DELAY_MS := by
    rw [hM, hI, hE]
    refine le_min (by nlinarith) (by norm_num)
  have hBhigh : min (INITIAL_RETRY_DELAY_MS * EXPONENTIAL_BACKOFF_MULTIPLIER ^ attempt)
      MAX_RETRY_DELAY_MS ≤ 5000 := hM ▸ min_le_right _ _
  have heq : calculateBackoffDelay r attempt =
      min (INITIAL_RETRY_DELAY_MS * EXPONENTIAL_BACKOFF_MULTIPLIER ^ attempt)
        MAX_RETRY_DELAY_MS * (7 / 8 + r / 4) := by
    simp only [calculateBackoffDelay]
    rw [max_eq_left (by nlinarith)]
    ring
  have hfac2 : (7 : ℚ) / 8 + r / 4 < 9 / 8 := by linarith
  have hfac0 : (0 : ℚ) ≤ 7 / 8 + r / 4 := by linarith
  refine ⟨heq, ?_, ?_, ?_, ?_⟩
  · rw [heq]; nlinarith
  · rw [heq]; nlinarith
  · rw [heq]; nlinarith
  · rw [heq]
    calc min (INITIAL_RETRY_DELAY_MS * EXPONENTIAL_BACKOFF_MULTIPLIER ^ attempt)
          MAX_RETRY_DELAY_MS * (7 / 8 + r / 4)
        ≤ 5000 * (9 / 8) := mul_le_mul hBhigh (le_of_lt hfac2) hfac0 (by norm_num)
      _ ≤ MAX_RETRY_DELAY_MS * (5 / 4) := by rw [hM]; norm_num

/-- Witness for C6 amended: at attempt 1 with the draw 1/2, the delay is
exactly the clamped base 2000. -/
theorem C6_witness : calculateBackoffDelay (1 / 2) 1 = 2000 := by
  have h := (C6_backoff_jitter (1 / 2) 1 (by norm_num) (by norm_num)).1
  rw [h]
  have hI : INITIAL_RETRY_DELAY_MS = 1000 := rfl
  have hE : EXPONENTIAL_BACKOFF_MULTIPLIER = 2 := rfl
  have hM : MAX_RETRY_DELAY_MS = 5000 := rfl
  rw [hI, hE, hM]
  norm_num

/-! ## C10: fetchAllCalendarEvents keeps only timed events -/

theorem hasStartDateTime_iff (e : Event) :
    hasStartDateTime e = true ↔ ∃ s dt, e.start = some s ∧ s.dateTime = some dt := by
  obtain ⟨st, en⟩ := e
  cases st with
  | none => simp [hasStartDateTime]
  | some s =>
    cases hdt : s.dateTime with
    | none => simp [hasStartDateTime, hdt]
    | some dt => simp [hasStartDateTime, hdt]

/-! ## C7: batching -/

theorem batchChunksGo_flatten {ρ : Type} :
    ∀ (fuel : Nat) (l : List ρ), l.length ≤ fuel → (batchChunksGo ρ fuel l).flatten = l := by
  intro fuel
  induction fuel with
  | zero =>
    intro l hl
    rw [List.eq_nil_of_length_eq_zero (Nat.le_zero.mp hl)]
    rfl
  | succ fuel ih =>
    intro l hl
    rw [batchChunksGo]
    by_cases he : l.isEmpty
    · rw [if_pos he, List.isEmpty_iff.mp he]
      rfl
    · rw [if_neg he]
      have hlen : 0 < l.length := List.length_pos.mpr (fun h => he (by simp [h]))
      have hb : BATCH_SIZE = 5 := rfl
      rw [List.flatten_cons, ih (l.drop BATCH_SIZE) (by rw [List.length_drop, hb]; omega)]
      exact List.take_append_drop BATCH_SIZE l

theorem batchChunksGo_count {ρ : Type} :
    ∀ (fuel : Nat) (l : List ρ), l.length ≤ fuel →
    (batchChunksGo ρ fuel l).length = (l.length + BATCH_SIZE - 1) / BATCH_SIZE := by
  have hb : BATCH_SIZE = 5 := rfl
  intro fuel
  induction fuel with
  | zero =>
    intro l hl
    rw [List.eq_nil_of_length_eq_zero (Nat.le_zero.mp hl), hb]
    simp [batchChunksGo]
  | succ fuel ih =>
    intro l hl
    rw [batchChunksGo]
    by_cases he : l.isEmpty
    · rw [if_pos he, List.isEmpty_iff.mp he, hb]
      simp
    · rw [if_neg he]
      have hlen : 0 < l.length := List.length_pos.mpr (fun h => he (by simp [h]))
      rw [List.length_cons, ih (l.drop BATCH_SIZE) (by rw [List.length_drop, hb]; omega)]
      rw [List.length_drop, hb]
      omega

theorem batchChunksGo_sizes {ρ : Type} :
    ∀ (fuel : Nat) (l : List ρ) (c : List ρ), c ∈ batchChunksGo ρ fuel l →
    c.length ≤ BATCH_SIZE := by
  intro fuel
  induction fuel with
  | zero => intro l c hc; exact absurd hc (List.not_mem_nil c)
  | succ fuel ih =>
    intro l c hc
    rw [batchChunksGo] at hc
    by_cases he : l.isEmpty
    · rw [if_pos he] at hc
      exact absurd hc (List.not_mem_nil c)
    · rw [if_neg he, List.mem_cons] at hc
      rcases hc with hc | hc
      · rw [hc]
        exact List.length_take_le BATCH_SIZE l
      · exact ih (l.drop BATCH_SIZE) c hc

theorem flatMap_map_eq {ρ δ : Type} (f : ρ → δ) :
    ∀ L : List (List ρ), (L.flatMap (fun batch => batch.map f)) = L.flatten.map f := by
  intro L
  induction L with
  | nil => rfl
  | cons b L ih => simp [ih]

/-- C7: `batchRequest` partitions the M requests into `ceil(M / batchSize)`
consecutive chunks of size at most `batchSize = 5`, returns exactly M results
with the i-th result the settled outcome of the i-th request, and a failing
request only occupies its own slot (every other slot still holds its own
request's outcome, whatever `exec` does elsewhere). -/
theorem C7_batch_partition {ρ δ ε : Type} (requests : List ρ) (exec : ρ → Except ε δ) :
    (batchChunks requests).length = (requests.length + BATCH_SIZE - 1) / BATCH_SIZE ∧
    (∀ c ∈ batchChunks requests, c.length ≤ BATCH_SIZE) ∧
    (batchChunks requests).flatten = requests ∧
    batchRequest exec requests = requests.map exec ∧
    ∀ (i : Nat) (h : i < requests.length),
      (batchRequest exec requests)[i]? = some (exec (requests.get ⟨i, h⟩)) := by
  have hflat : (batchChunks requests).flatten = requests :=
    batchChunksGo_flatten requests.length requests (Nat.le_refl _)
  have hmap : batchRequest exec requests = requests.map exec := by
    rw [batchRequest, flatMap_map_eq, hflat]
  refine ⟨batchChunksGo_count requests.length requests (Nat.le_refl _),
    fun c hc => batchChunksGo_sizes requests.length requests c hc, hflat, hmap, ?_⟩
  intro i h
  rw [hmap, List.getElem?_map, List.getElem?_eq_getElem h]
  rfl

/-- Witness for C7: three requests, the middle one failing, give three slots
with the error isolated in the middle slot. -/
theorem C7_witness :
    batchRequest (fun n : Nat => if n = 1 then Except.error "boom" else Except.ok n) [0, 1, 2] =
      [Except.ok 0, Except.error "boom", Except.ok 2] ∧
    (batchRequest (fun n : Nat => if n = 1 then Except.error "boom" else Except.ok n)
        [0, 1, 2])[1]? = some (Except.error "boom") := by
  have h := C7_batch_partition [0, 1, 2]
    (fun n : Nat => if n = 1 then Except.error "boom" else Except.ok n)
  refine ⟨?_, ?_⟩
  · rw [h.2.2.2.1]
    rfl
  · have := h.2.2.2.2 1 (by decide)
    simpa using this

/-! ## C8: merge idempotence -/

theorem mergeLoop_spec :
    ∀ (l : List Slot) (cur : Slot), l.Pairwise slotLE →
    (∀ b ∈ l, cur.startTime ≤ b.startTime) →
    ∃ c t, mergeLoop cur l = c :: t ∧ c.startTime = cur.startTime ∧
      (c :: t).Pairwise slotLE ∧
      (c :: t).Chain' (fun a b => a.endTime < b.startTime) := by
  intro l
  induction l with
  | nil =>
    intro cur _ _
    exact ⟨cur, [], rfl, rfl, List.pairwise_singleton _ _, List.chain'_singleton _⟩
  | cons s rest ih =>
    intro cur hp hc
    rw [mergeLoop]
    by_cases hm : s.startTime ≤ cur.endTime
    · rw [if_pos hm]
      refine ih _ (List.Pairwise.of_cons hp) ?_
      intro b hb
      exact hc b (List.mem_cons_of_mem s hb)
    · rw [if_neg hm]
      obtain ⟨c, t, heq, hst, hpw, hch⟩ := ih s (List.Pairwise.of_cons hp)
        (fun b hb => List.rel_of_pairwise_cons hp hb)
      rw [heq]
      have hcs : cur.startTime ≤ s.startTime := hc s (List.mem_cons_self s rest)
      refine ⟨cur, c :: t, rfl, rfl, ?_, ?_⟩
      · refine List.Pairwise.cons ?_ hpw
        intro x hx
        rcases List.mem_cons.mp hx with hx | hx
        · rw [hx, slotLE, hst]
          exact hcs
        · have : slotLE c x := List.rel_of_pairwise_cons hpw hx
          exact Nat.le_trans (hst ▸ hcs) this
      · rw [List.chain'_cons]
        exact ⟨hst ▸ Nat.lt_of_not_le hm, hch⟩

theorem mergeLoop_of_chain :
    ∀ (l : List Slot) (cur : Slot),
    (cur :: l).Chain' (fun a b => a.endTime < b.startTime) →
    mergeLoop cur l = cur :: l := by
  intro l
  induction l with
  | nil => intro cur _; rfl
  | cons s rest ih =>
    intro cur hch
    rw [List.chain'_cons] at hch
    rw [mergeLoop, if_neg (Nat.not_le.mpr hch.1), ih s hch.2]

/-- C8: `mergeContinuousSlots` is idempotent — merging an already merged slot
list returns it unchanged. -/
theorem C8_merge_idempotent (slots : List Slot) :
    mergeContinuousSlots (mergeContinuousSlots slots) = mergeContinuousSlots slots := by
  rcases hs : List.insertionSort slotLE slots with _ | ⟨s, rest⟩
  · have h1 : mergeContinuousSlots slots = [] := by
      unfold mergeContinuousSlots
      rw [hs]
    rw [h1]
    rfl
  · have hsorted : (s :: rest).Pairwise slotLE := by
      rw [← hs]
      exact List.sorted_insertionSort slotLE slots
    obtain ⟨c, t, heq, _, hpw, hch⟩ := mergeLoop_spec rest s
      (List.Pairwise.of_cons hsorted)
      (fun b hb => List.rel_of_pairwise_cons hsorted hb)
    have h1 : mergeContinuousSlots slots = c :: t := by
      unfold mergeContinuousSlots
      rw [hs]
      exact heq
    rw [h1]
    unfold mergeContinuousSlots
    rw [List.Sorted.insertionSort_eq hpw]
    exact mergeLoop_of_chain t c hch

/-- C10: the unioned result of `fetchAllCalendarEvents` contains exactly the
unioned successful events that carry a `start.dateTime`; in particular every
all-day event (`start.date` only) and every event lacking a start is removed. -/
theorem C10_timed_events_only (results : List CalFetchResult) (e : Event) :
    e ∈ extractAllEvents results ↔
      e ∈ unionedEvents results ∧ ∃ s dt, e.start = some s ∧ s.dateTime = some dt := by
  unfold extractAllEvents
  rw [List.mem_filter, hasStartDateTime_iff]

end CalendarGap
